import Mathlib

/-! # Verification of the `brief` token library

A shallow embedding, in Lean 4, of the Go package `brief` (file `brief.go`),
which mints and verifies compact signed tokens of the form
`base64url(data) "." YYYYMMDDHHMMSS "." base64url(signature)` with an
HMAC-SHA-256 signature over `data ++ big-endian-64(unix_seconds(expiry))`.

Modelling choices:

* Bytes are `Nat` values; byte sequences are `List Nat`.  Where a property
  needs the Go invariant that a `byte` is below 256, it appears as an
  explicit hypothesis.
* `crypto/sha256` and `crypto/hmac` are embedded as executable functions
  (`sha256`, `hmacSha256`) over byte lists, checked below against the FIPS
  180-4 and RFC 4231 test vectors.
* `encoding/base64`'s `RawURLEncoding` is embedded by `b64Encode` /
  `b64Decode`.  Like Go's decoder, `b64Decode` skips CR and LF characters
  and does not reject non-zero trailing bits (Go's non-`Strict` mode).
* Go's `time.Time` is embedded by `GoTime`: civil fields
  (year/month/day/hour/minute/second), a nanosecond part, and a fixed zone
  offset in seconds east of UTC.  This models a `time.Time` carrying a
  `FixedZone` location; `time.Local` is modelled as a fixed offset
  (`localOff` parameters below).  `GoTime.unixSec` is Go's `Unix()`,
  `GoTime.instantNs` the full-precision instant used by `After` and
  `Equal`, `formatTimestamp` is `Format("20060102150405")` (which renders
  in the time value's own zone) and `parseTimestamp` is the observable
  behaviour of `time.ParseInLocation` with that layout: it accepts exactly
  14 ASCII digits whose fields form a real calendar date and clock time.
* `crypto/rand` is modelled by an ambient entropy stream `Entropy := Nat →
  Nat`; `randBytes e n` is a read of `n` random bytes.  The generation of
  the lazy secret and of `Generate`'s payload consume such a stream.
* `Mint` carries `secret : Option (List Nat)` (Go's `nil` slice is `none`,
  a non-nil slice `some bytes`) and `onceDone : Bool` for the state of its
  `sync.Once`.  Methods thread the `Mint` state explicitly; `Verify` takes
  the current time as a parameter.
-/

/-! ## Bytes and big-endian encoding -/

/-- Big-endian bytes of a natural number, fixed width `k`
(Go `binary.BigEndian.PutUint64` is `beBytes 8`). -/
def beBytes : Nat → Nat → List Nat
  | 0, _ => []
  | k+1, n => (n >>> (8*k)) % 256 :: beBytes k n

/-! ## SHA-256 (embedding of Go `crypto/sha256`) -/

/-- Truncation to a 32-bit word. -/
def w32 (n : Nat) : Nat := n % 4294967296

/-- 32-bit right rotation (inputs below `2^32`). -/
def rotr32 (x n : Nat) : Nat := w32 ((x >>> n) ||| (x <<< (32 - n)))

/-- The SHA-256 round constants. -/
def shaK : List Nat :=
  [1116352408, 1899447441, 3049323471, 3921009573, 961987163, 1508970993,
   2453635748, 2870763221, 3624381080, 310598401, 607225278, 1426881987,
   1925078388, 2162078206, 2614888103, 3248222580, 3835390401, 4022224774,
   264347078, 604807628, 770255983, 1249150122, 1555081692, 1996064986,
   2554220882, 2821834349, 2952996808, 3210313671, 3336571891, 3584528711,
   113926993, 338241895, 666307205, 773529912, 1294757372, 1396182291,
   1695183700, 1986661051, 2177026350, 2456956037, 2730485921, 2820302411,
   3259730800, 3345764771, 3516065817, 3600352804, 4094571909, 275423344,
   430227734, 506948616, 659060556, 883997877, 958139571, 1322822218,
   1537002063, 1747873779, 1955562222, 2024104815, 2227730452, 2361852424,
   2428436474, 2756734187, 3204031479, 3329325298]

/-- The eight 32-bit words of a hash value (Go's `digest.h` array). -/
structure HashVal where
  h0 : Nat
  h1 : Nat
  h2 : Nat
  h3 : Nat
  h4 : Nat
  h5 : Nat
  h6 : Nat
  h7 : Nat

/-- The SHA-256 initial hash value. -/
def shaH0 : HashVal :=
  ⟨0x6a09e667, 0xbb67ae85, 0x3c6ef372, 0xa54ff53a, 0x510e527f, 0x9b05688c, 0x1f83d9ab, 0x5be0cd19⟩

/-- SHA-256 message padding: `0x80`, zeros to 56 mod 64, then the 64-bit
big-endian bit length. -/
def shaPad (msg : List Nat) : List Nat :=
  let l := msg.length
  let zeros := (120 - (l + 1) % 64) % 64
  msg ++ 0x80 :: List.replicate zeros 0 ++ beBytes 8 (8 * l)

/-- Group bytes, 4 at a time big-endian, into 32-bit words. -/
def bytesToWords : List Nat → List Nat
  | b0 :: b1 :: b2 :: b3 :: rest =>
    (b0 <<< 24 ||| b1 <<< 16 ||| b2 <<< 8 ||| b3) :: bytesToWords rest
  | _ => []

/-- Message-schedule extension: apply `k` extension steps to the word list. -/
def shaExtend (w : List Nat) : Nat → List Nat
  | 0 => w
  | k+1 =>
    let w' := shaExtend w k
    let i := w'.length
    let w15 := w'.getD (i - 15) 0
    let w2 := w'.getD (i - 2) 0
    let w16 := w'.getD (i - 16) 0
    let w7 := w'.getD (i - 7) 0
    let s0 := (rotr32 w15 7) ^^^ (rotr32 w15 18) ^^^ (w15 >>> 3)
    let s1 := (rotr32 w2 17) ^^^ (rotr32 w2 19) ^^^ (w2 >>> 10)
    w' ++ [w32 (w16 + s0 + w7 + s1)]

/-- The eight working variables of the compression function. -/
structure ShaState where
  a : Nat
  b : Nat
  c : Nat
  d : Nat
  e : Nat
  f : Nat
  g : Nat
  h : Nat

/-- One compression round (`0xffffffff - e` is 32-bit complement of `e`). -/
def shaRound (s : ShaState) (ki wi : Nat) : ShaState :=
  let S1 := (rotr32 s.e 6) ^^^ (rotr32 s.e 11) ^^^ (rotr32 s.e 25)
  let ch := (s.e &&& s.f) ^^^ ((4294967295 - s.e) &&& s.g)
  let temp1 := w32 (s.h + S1 + ch + ki + wi)
  let S0 := (rotr32 s.a 2) ^^^ (rotr32 s.a 13) ^^^ (rotr32 s.a 22)
  let maj := (s.a &&& s.b) ^^^ (s.a &&& s.c) ^^^ (s.b &&& s.c)
  let temp2 := w32 (S0 + maj)
  ⟨w32 (temp1 + temp2), s.a, s.b, s.c, w32 (s.d + temp1), s.e, s.f, s.g⟩

/-- Fold the rounds over the constants and the schedule. -/
def shaRounds (s : ShaState) : List Nat → List Nat → ShaState
  | k :: ks, w :: ws => shaRounds (shaRound s k w) ks ws
  | _, _ => s

/-- Process one 64-byte block, given as its 16 words. -/
def shaBlock (hv : HashVal) (block : List Nat) : HashVal :=
  let w := shaExtend block 48
  let s0 : ShaState := ⟨hv.h0, hv.h1, hv.h2, hv.h3, hv.h4, hv.h5, hv.h6, hv.h7⟩
  let s := shaRounds s0 shaK w
  ⟨w32 (hv.h0 + s.a), w32 (hv.h1 + s.b), w32 (hv.h2 + s.c), w32 (hv.h3 + s.d),
   w32 (hv.h4 + s.e), w32 (hv.h5 + s.f), w32 (hv.h6 + s.g), w32 (hv.h7 + s.h)⟩

/-- Fold `shaBlock` over the 16-word blocks of the padded message. -/
def shaBlocks (hv : HashVal) : List Nat → HashVal
  | w0 :: w1 :: w2 :: w3 :: w4 :: w5 :: w6 :: w7 ::
    w8 :: w9 :: w10 :: w11 :: w12 :: w13 :: w14 :: w15 :: rest =>
    shaBlocks
      (shaBlock hv [w0, w1, w2, w3, w4, w5, w6, w7, w8, w9, w10, w11, w12, w13, w14, w15]) rest
  | _ => hv

/-- SHA-256 of a byte sequence, as its 32 digest bytes. -/
def sha256 (msg : List Nat) : List Nat :=
  let hv := shaBlocks shaH0 (bytesToWords (shaPad msg))
  beBytes 4 hv.h0 ++ beBytes 4 hv.h1 ++ beBytes 4 hv.h2 ++ beBytes 4 hv.h3 ++
  beBytes 4 hv.h4 ++ beBytes 4 hv.h5 ++ beBytes 4 hv.h6 ++ beBytes 4 hv.h7

/-- HMAC-SHA-256 (Go `hmac.New(sha256.New, key)`): keys longer than the
64-byte block are first hashed, then zero-padded to the block size. -/
def hmacSha256 (key msg : List Nat) : List Nat :=
  let k1 := if key.length > 64 then sha256 key else key
  let k2 := k1 ++ List.replicate (64 - k1.length) 0
  let ipad := k2.map (fun b => b ^^^ 0x36)
  let opad := k2.map (fun b => b ^^^ 0x5c)
  sha256 (opad ++ sha256 (ipad ++ msg))

/-- Bytes of an ASCII string. -/
def strBytes (s : String) : List Nat := s.data.map Char.toNat

/-! ## base64url (embedding of Go `encoding/base64`, `RawURLEncoding`)

Go's encoder works on 3-byte groups producing 6-bit values; the bit
operations `x >>> k`, `x &&& mask`, `x <<< k` on bytes are written here in
their arithmetic form (`/`, `%`, `*`) to keep the proofs in `omega`'s
fragment; on byte-sized inputs the two are the same functions. -/

/-- The URL-and-filename-safe base64 alphabet (RFC 4648 §5). -/
def b64Alphabet : List Char :=
  "ABCDEFGHIJKLMNOPQRSTUVWXYZabcdefghijklmnopqrstuvwxyz0123456789-_".data

/-- The alphabet character of a 6-bit value. -/
def b64Char (v : Nat) : Char := b64Alphabet.getD v 'A'

/-- Unpadded base64url encoding of a byte sequence (Go `Encoding.EncodeToString`
with `RawURLEncoding`): 3-byte groups become 4 characters, a 2-byte tail 3
characters, a 1-byte tail 2 characters, no `=` padding. -/
def b64Encode : List Nat → List Char
  | b1 :: b2 :: b3 :: rest =>
      b64Char (b1 / 4) :: b64Char ((b1 % 4) * 16 + b2 / 16) ::
      b64Char ((b2 % 16) * 4 + b3 / 64) :: b64Char (b3 % 64) :: b64Encode rest
  | [b1, b2] =>
      [b64Char (b1 / 4), b64Char ((b1 % 4) * 16 + b2 / 16), b64Char ((b2 % 16) * 4)]
  | [b1] => [b64Char (b1 / 4), b64Char ((b1 % 4) * 16)]
  | [] => []

/-- The 6-bit value of an alphabet character, `none` outside the alphabet. -/
def b64Index (c : Char) : Option Nat :=
  if c ∈ b64Alphabet then some (b64Alphabet.findIdx (· == c)) else none

/-- Go's base64 decoder skips CR and LF characters wherever they occur. -/
def stripCRLF (cs : List Char) : List Char :=
  cs.filter (fun c => c != '\r' && c != '\n')

/-- Translate every character to its 6-bit value; fail on the first
character outside the alphabet. -/
def b64Sextets : List Char → Option (List Nat)
  | [] => some []
  | c :: cs =>
    match b64Index c, b64Sextets cs with
    | some v, some vs => some (v :: vs)
    | _, _ => none

/-- Regroup 6-bit values into bytes: 4 values give 3 bytes, a 3-value tail
2 bytes, a 2-value tail 1 byte, a single leftover value is an error.
Go's non-`Strict` decoder does not check the unused trailing bits. -/
def b64Group : List Nat → Option (List Nat)
  | [] => some []
  | [_] => none
  | [s1, s2] => some [s1 * 4 + s2 / 16]
  | [s1, s2, s3] => some [s1 * 4 + s2 / 16, (s2 % 16) * 16 + s3 / 4]
  | s1 :: s2 :: s3 :: s4 :: rest =>
    (b64Group rest).map
      (fun bs => (s1 * 4 + s2 / 16) :: ((s2 % 16) * 16 + s3 / 4) :: ((s3 % 4) * 64 + s4) :: bs)

/-- Base64url decoding as Go's `RawURLEncoding.DecodeString` performs it:
skip CR/LF, translate, regroup. -/
def b64Decode (cs : List Char) : Option (List Nat) :=
  match b64Sextets (stripCRLF cs) with
  | none => none
  | some vs => b64Group vs

/-- Validity of an unpadded base64url string as the specification words it
(RFC 4648 URL-safe alphabet, no padding): every character is from the
alphabet and the length is not 1 mod 4.  Used to compare the code's decoder
against the specification's acceptance condition. -/
def specValidBase64url (cs : List Char) : Prop :=
  (∀ c ∈ cs, c ∈ b64Alphabet) ∧ cs.length % 4 ≠ 1

instance (cs : List Char) : Decidable (specValidBase64url cs) := by
  unfold specValidBase64url; infer_instance

/-- The 6-bit values the encoder produces for a byte sequence. -/
def encSext : List Nat → List Nat
  | b1 :: b2 :: b3 :: rest =>
      (b1 / 4) :: ((b1 % 4) * 16 + b2 / 16) :: ((b2 % 16) * 4 + b3 / 64) :: (b3 % 64) ::
      encSext rest
  | [b1, b2] => [b1 / 4, (b1 % 4) * 16 + b2 / 16, (b2 % 16) * 4]
  | [b1] => [b1 / 4, (b1 % 4) * 16]
  | [] => []

/-! ## Time (model of Go `time.Time` carried in a fixed-offset zone)

A `GoTime` stores the civil clock reading (year/month/day hour:minute:second),
the sub-second nanoseconds, and the zone offset in seconds east of UTC.  This
is the information content of a Go `time.Time` whose location is a fixed
offset; Go's `Format` renders the stored civil fields (it formats in the
value's own location) and `Unix()` is recovered arithmetically.  The model
covers the proleptic Gregorian calendar from year 0 on, and Unix seconds
within `int64` range (true for every year representable in 14 digits). -/

structure GoTime where
  year : Nat
  month : Nat
  day : Nat
  hour : Nat
  minute : Nat
  second : Nat
  nsec : Nat
  offset : Int
deriving DecidableEq

/-- Go's leap-year rule. -/
def isLeap (y : Nat) : Bool := y % 4 == 0 && (y % 100 != 0 || y % 400 == 0)

/-- Days in a month (Go `daysIn`); months outside 1..12 never reach this in
a validated time. -/
def daysInMonth (m y : Nat) : Nat :=
  match m with
  | 1 => 31
  | 2 => if isLeap y then 29 else 28
  | 3 => 31
  | 4 => 30
  | 5 => 31
  | 6 => 30
  | 7 => 31
  | 8 => 31
  | 9 => 30
  | 10 => 31
  | 11 => 30
  | 12 => 31
  | _ => 0

/-- Days in the months before month `m` of a year (leap-adjusted). -/
def monthDaysBefore (m : Nat) (leap : Bool) : Nat :=
  let base :=
    match m with
    | 1 => 0
    | 2 => 31
    | 3 => 59
    | 4 => 90
    | 5 => 120
    | 6 => 151
    | 7 => 181
    | 8 => 212
    | 9 => 243
    | 10 => 273
    | 11 => 304
    | 12 => 334
    | _ => 365
  if leap && m ≥ 3 then base + 1 else base

/-- Number of leap years in `[0, y)`. -/
def leapsBefore (y : Nat) : Nat := (y + 3) / 4 - (y + 99) / 100 + (y + 399) / 400

/-- Day count of a civil date from 0000-01-01 (proleptic Gregorian). -/
def daysFromYear0 (y m d : Nat) : Nat :=
  365 * y + leapsBefore y + monthDaysBefore m (isLeap y) + (d - 1)

/-- Unix seconds of a `GoTime` (Go `Time.Unix()`): the civil reading counts
from the epoch, shifted west by the zone offset.  0000-01-01 is 719528 days
before 1970-01-01. -/
def GoTime.unixSec (t : GoTime) : Int :=
  ((daysFromYear0 t.year t.month t.day : Int) - 719528) * 86400 +
    (t.hour : Int) * 3600 + (t.minute : Int) * 60 + (t.second : Int) - t.offset

/-- The absolute instant in nanoseconds; `After` and `Equal` compare this. -/
def GoTime.instantNs (t : GoTime) : Int := t.unixSec * 1000000000 + t.nsec

/-- Go `t.After(u)`: strictly later instant, nanosecond precision. -/
def GoTime.After (t u : GoTime) : Bool := decide (u.instantNs < t.instantNs)

/-- Go `t.Equal(u)`: the same instant. -/
def GoTime.Equal (t u : GoTime) : Prop := t.instantNs = u.instantNs

/-- Truncation to whole seconds (drop the sub-second part). -/
def GoTime.truncSec (t : GoTime) : GoTime :=
  { t with nsec := 0 }

/-- Go `uint64(t.Unix())`: the Unix seconds reduced mod `2^64`. -/
def unixU64 (t : GoTime) : Nat := (t.unixSec % (18446744073709551616 : Int)).toNat

/-- Valid civil fields: what Go's parser accepts and what any `time.Time`
denormalizes to. -/
def GoTime.ValidCivil (t : GoTime) : Prop :=
  1 ≤ t.month ∧ t.month ≤ 12 ∧ 1 ≤ t.day ∧ t.day ≤ daysInMonth t.month t.year ∧
    t.hour ≤ 23 ∧ t.minute ≤ 59 ∧ t.second ≤ 59 ∧ t.nsec < 1000000000

instance (t : GoTime) : Decidable t.ValidCivil := by
  unfold GoTime.ValidCivil; infer_instance

/-! ### The 14-digit timestamp layout `"20060102150405"` -/

/-- Exactly `w` decimal digits of `n`, most significant first, zero-padded
(the value of Go's zero-padded numeric layout fields for `n < 10^w`). -/
def fixedDigits : Nat → Nat → List Nat
  | 0, _ => []
  | w+1, n => fixedDigits w (n / 10) ++ [n % 10]

/-- All decimal digits of `n`, most significant first. -/
def natDigitsBE (n : Nat) : List Nat :=
  if _h : n < 10 then [n] else natDigitsBE (n / 10) ++ [n % 10]
  termination_by n
  decreasing_by omega

/-- Go `appendInt(b, v, w)`: zero-pad to width `w`, print every digit when
the value needs more. -/
def padNum (w n : Nat) : List Nat :=
  if n < 10 ^ w then fixedDigits w n else natDigitsBE n

/-- The character of a decimal digit. -/
def digitChar (d : Nat) : Char := Char.ofNat (48 + d)

def isDigitChar (c : Char) : Bool := 48 ≤ c.toNat && c.toNat ≤ 57

def digitVal (c : Char) : Nat := c.toNat - 48

def digitsToNat (ds : List Nat) : Nat := ds.foldl (fun a d => 10 * a + d) 0

/-- Go `t.Format("20060102150405")`: the six fields, zero-padded to widths
4,2,2,2,2,2, rendered from the time value's own civil fields. -/
def formatTimestamp (t : GoTime) : List Char :=
  (padNum 4 t.year ++ padNum 2 t.month ++ padNum 2 t.day ++
    padNum 2 t.hour ++ padNum 2 t.minute ++ padNum 2 t.second).map digitChar

/-- The observable behaviour of Go `time.ParseInLocation("20060102150405", s, loc)`
on the value side: it succeeds exactly on 14 ASCII digits whose fields are a
real calendar date and clock time (months 1–12, day within the leap-aware
month length, hour ≤ 23, minute/second ≤ 59), and returns the six fields. -/
def parseTimestamp (cs : List Char) : Option (Nat × Nat × Nat × Nat × Nat × Nat) :=
  if cs.length = 14 ∧ ∀ c ∈ cs, isDigitChar c then
    let ds := cs.map digitVal
    let y := digitsToNat (ds.take 4)
    let mo := digitsToNat ((ds.drop 4).take 2)
    let d := digitsToNat ((ds.drop 6).take 2)
    let h := digitsToNat ((ds.drop 8).take 2)
    let mi := digitsToNat ((ds.drop 10).take 2)
    let s := digitsToNat ((ds.drop 12).take 2)
    if 1 ≤ mo ∧ mo ≤ 12 ∧ 1 ≤ d ∧ d ≤ daysInMonth mo y ∧ h ≤ 23 ∧ mi ≤ 59 ∧ s ≤ 59 then
      some (y, mo, d, h, mi, s)
    else none
  else none

/-! ## The token and its string codec (embedding of `Token.String` / `FromString`) -/

/-- A token: data + expiry + signature (`brief.Token`). -/
structure Token where
  Data : List Nat
  Expiry : GoTime
  Signature : List Nat
deriving DecidableEq

/-- `brief.Encode`: unpadded base64url of arbitrary bytes. -/
def Encode (data : List Nat) : List Char := b64Encode data

/-- `Token.String()`: `Encode(Data) + "." + Expiry.Format(timeLayout) + "." +
Encode(Signature)`.  (Go's `Format` renders the expiry in its own zone.) -/
def Token.String (t : Token) : List Char :=
  Encode t.Data ++ '.' :: (formatTimestamp t.Expiry ++ '.' :: Encode t.Signature)

/-- `strings.Split(s, ".")`: the fragments of `s` between the dots. -/
def splitDot : List Char → List (List Char)
  | [] => [[]]
  | c :: rest =>
    if c = '.' then [] :: splitDot rest
    else
      match splitDot rest with
      | [] => [[c]]
      | p :: ps => (c :: p) :: ps

/-- The distinguishable failures of `FromString` (the error kinds wrapped
into `ErrParse` in Go: `ErrFormat`, `ErrFieldData`, `ErrFieldExpiry`,
`ErrFieldSignature`). -/
inductive ParseErr where
  | format
  | dataDecode
  | expiryParse
  | sigDecode
deriving DecidableEq

/-- `brief.FromString`: split on `"."` into exactly 3 parts, base64-decode
the data, parse the 14-digit timestamp in the local zone (`localOff` is the
`time.Local` offset), base64-decode the signature.  Success asserts only
syntactic well-formedness. -/
def FromString (localOff : Int) (s : List Char) : Except ParseErr Token :=
  match splitDot s with
  | [p0, p1, p2] =>
    match b64Decode p0 with
    | none => .error .dataDecode
    | some data =>
      match parseTimestamp p1 with
      | none => .error .expiryParse
      | some (y, mo, d, h, mi, sec) =>
        match b64Decode p2 with
        | none => .error .sigDecode
        | some sig => .ok ⟨data, ⟨y, mo, d, h, mi, sec, 0, localOff⟩, sig⟩
  | _ => .error .format

/-! ## The Mint (keyed authority) -/

/-- A stream of random values modelling `crypto/rand`. -/
def Entropy : Type := Nat → Nat

/-- Read `n` random bytes from a stream (`rand.Read` on an `n`-byte slice). -/
def randBytes (e : Entropy) (n : Nat) : List Nat :=
  (List.range n).map (fun i => e i % 256)

/-- `brief.Mint`: the secret (Go `nil` slice is `none`) and whether its
`sync.Once` has fired. -/
structure Mint where
  secret : Option (List Nat)
  onceDone : Bool
deriving DecidableEq

/-- The zero-value `Mint`. -/
def Mint.zero : Mint := ⟨none, false⟩

/-- `brief.NewMint`: store the given secret, `Once` not yet fired. -/
def NewMint (secret : Option (List Nat)) : Mint := ⟨secret, false⟩

/-- The key the hash actually uses: the stored secret (after `Once` it is
always set on reachable states). -/
def Mint.key (m : Mint) : List Nat := m.secret.getD []

/-- `Mint.createSignature`: on the first call the `sync.Once` body runs and,
if the secret is `nil`, draws 256 random bytes for it; then HMAC-SHA-256
over `data ++ big-endian-64(uint64(expires.Unix()))`.  Returns the updated
mint and the MAC. -/
def Mint.createSignature (m : Mint) (e : Entropy) (data : List Nat) (expires : GoTime) :
    Mint × List Nat :=
  let m' : Mint :=
    if m.onceDone then m
    else ⟨some (m.secret.getD (randBytes e 256)), true⟩
  (m', hmacSha256 m'.key (data ++ beBytes 8 (unixU64 expires)))

/-- `Mint.Sign`: a token carrying the data, the expiry, and the MAC.  (The
Go error return is impossible: the hash writes cannot fail.) -/
def Mint.Sign (m : Mint) (e : Entropy) (data : List Nat) (expires : GoTime) :
    Mint × Token :=
  let (m', sig) := m.createSignature e data expires
  (m', ⟨data, expires, sig⟩)

/-- `Mint.Generate`: random data of the requested length, then `Sign`
(`ed` is the stream for the payload, `e` for a possible lazy secret). -/
def Mint.Generate (m : Mint) (e ed : Entropy) (dataLen : Nat) (expires : GoTime) :
    Mint × Token :=
  m.Sign e (randBytes ed dataLen) expires

/-- The failures of `Verify` (`ErrVerifyExpiry`, `ErrVerifySignature`). -/
inductive VerifyErr where
  | expired
  | invalidSignature
deriving DecidableEq

/-- `Mint.Verify` at current time `now`: if `now` is strictly after the
expiry, fail `expired` before any signature work; otherwise recompute the
MAC and compare (`hmac.Equal` is byte-sequence equality in constant time). -/
def Mint.Verify (m : Mint) (e : Entropy) (now : GoTime) (b : Token) :
    Mint × Except VerifyErr Token :=
  if now.After b.Expiry then (m, .error .expired)
  else
    let (m', sig) := m.createSignature e b.Data b.Expiry
    if b.Signature = sig then (m', .ok b) else (m', .error .invalidSignature)

/-- Errors of `VerifyString`: a parse failure or a verification failure. -/
inductive BriefErr where
  | parse (e : ParseErr)
  | verify (e : VerifyErr)
deriving DecidableEq

/-- `Mint.VerifyString`: parse, then verify. -/
def Mint.VerifyString (m : Mint) (e : Entropy) (localOff : Int) (now : GoTime)
    (s : List Char) : Mint × Except BriefErr Token :=
  match FromString localOff s with
  | .error pe => (m, .error (.parse pe))
  | .ok b =>
    match m.Verify e now b with
    | (m', .error ve) => (m', .error (.verify ve))
    | (m', .ok t) => (m', .ok t)

/-! ## Call sequences on one mint (for the secret-lifecycle claims) -/

/-- One call on a mint: `Sign`, `Generate` or `Verify`, each carrying the
entropy it may consume and its arguments. -/
inductive Op where
  | sign (e : Entropy) (data : List Nat) (expires : GoTime)
  | generate (e ed : Entropy) (dataLen : Nat) (expires : GoTime)
  | verify (e : Entropy) (now : GoTime) (tok : Token)

/-- Apply one call; also report the MAC the call computed, if it reached
the signing primitive (an expired `Verify` does not). -/
def applyOp (m : Mint) : Op → Mint × Option (List Nat)
  | .sign e data expires =>
    let (m', t) := m.Sign e data expires
    (m', some t.Signature)
  | .generate e ed dataLen expires =>
    let (m', t) := m.Generate e ed dataLen expires
    (m', some t.Signature)
  | .verify e now tok =>
    if now.After tok.Expiry then (m, none)
    else
      let (m', sig) := m.createSignature e tok.Data tok.Expiry
      (m', some sig)

/-- Run a sequence of calls, collecting each call's computed MAC. -/
def runOps (m : Mint) : List Op → Mint × List (Option (List Nat))
  | [] => (m, [])
  | op :: ops =>
    let (m', out) := applyOp m op
    let (m'', outs) := runOps m' ops
    (m'', out :: outs)

/-- The MAC a call computes when the mint's secret is `s`. -/
def opMac (s : List Nat) : Op → Option (List Nat)
  | .sign _ data expires => some (hmacSha256 s (data ++ beBytes 8 (unixU64 expires)))
  | .generate _ ed dataLen expires =>
    some (hmacSha256 s (randBytes ed dataLen ++ beBytes 8 (unixU64 expires)))
  | .verify _ now tok =>
    if now.After tok.Expiry then none
    else some (hmacSha256 s (tok.Data ++ beBytes 8 (unixU64 tok.Expiry)))

/-! ## Mint state helpers and spec-side acceptance conditions -/

/-- The mint state after the `sync.Once` body has run. -/
def postMint (m : Mint) (e : Entropy) : Mint :=
  if m.onceDone then m else ⟨some (m.secret.getD (randBytes e 256)), true⟩

/-- "14 digits forming a real date-time": exactly 14 ASCII digits whose
six fields are a real calendar date (month 1–12, day within the leap-aware
month length) and clock time (hour ≤ 23, minute ≤ 59, second ≤ 59). -/
def specValidTimestamp (cs : List Char) : Prop :=
  cs.length = 14 ∧ (∀ c ∈ cs, isDigitChar c) ∧
    1 ≤ digitsToNat (((cs.map digitVal).drop 4).take 2) ∧
    digitsToNat (((cs.map digitVal).drop 4).take 2) ≤ 12 ∧
    1 ≤ digitsToNat (((cs.map digitVal).drop 6).take 2) ∧
    digitsToNat (((cs.map digitVal).drop 6).take 2) ≤
      daysInMonth (digitsToNat (((cs.map digitVal).drop 4).take 2))
        (digitsToNat ((cs.map digitVal).take 4)) ∧
    digitsToNat (((cs.map digitVal).drop 8).take 2) ≤ 23 ∧
    digitsToNat (((cs.map digitVal).drop 10).take 2) ≤ 59 ∧
    digitsToNat (((cs.map digitVal).drop 12).take 2) ≤ 59

instance (cs : List Char) : Decidable (specValidTimestamp cs) := by
  unfold specValidTimestamp; infer_instance

/-- Decidable equality for `Except`, for evaluating concrete instances. -/
instance {e a : Type} [DecidableEq e] [DecidableEq a] : DecidableEq (Except e a) := fun x y =>
  match x, y with
  | .error u, .error v =>
    if h : u = v then .isTrue (by rw [h]) else .isFalse (by simp [h])
  | .ok u, .ok v =>
    if h : u = v then .isTrue (by rw [h]) else .isFalse (by simp [h])
  | .error _, .ok _ => .isFalse (by simp)
  | .ok _, .error _ => .isFalse (by simp)

instance (t u : GoTime) : Decidable (t.Equal u) := by
  unfold GoTime.Equal; infer_instance

/-- A fixed entropy stream for concrete instances. -/
def entZero : Entropy := fun _ => 0

/-! ## Theorems -/

theorem beBytes_length (k n : Nat) : (beBytes k n).length = k := by
  induction k generalizing n with
  | zero => rfl
  | succ k ih => simp [beBytes, ih]

theorem beBytes_lt (k n : Nat) : ∀ b ∈ beBytes k n, b < 256 := by
  induction k generalizing n with
  | zero => simp [beBytes]
  | succ k ih =>
    intro b hb
    simp only [beBytes, List.mem_cons] at hb
    rcases hb with h | h
    · omega
    · exact ih n b h

/-- Sanity: FIPS 180-4 vector, SHA-256 of the empty message. -/
theorem sha256_empty_vector : sha256 [] =
    [0xe3, 0xb0, 0xc4, 0x42, 0x98, 0xfc, 0x1c, 0x14,
     0x9a, 0xfb, 0xf4, 0xc8, 0x99, 0x6f, 0xb9, 0x24,
     0x27, 0xae, 0x41, 0xe4, 0x64, 0x9b, 0x93, 0x4c,
     0xa4, 0x95, 0x99, 0x1b, 0x78, 0x52, 0xb8, 0x55] := by decide

/-- Sanity: FIPS 180-4 vector, SHA-256 of `"abc"`. -/
theorem sha256_abc_vector : sha256 (strBytes "abc") =
    [0xba, 0x78, 0x16, 0xbf, 0x8f, 0x01, 0xcf, 0xea,
     0x41, 0x41, 0x40, 0xde, 0x5d, 0xae, 0x22, 0x23,
     0xb0, 0x03, 0x61, 0xa3, 0x96, 0x17, 0x7a, 0x9c,
     0xb4, 0x10, 0xff, 0x61, 0xf2, 0x00, 0x15, 0xad] := by decide

set_option maxRecDepth 100000 in
/-- Sanity: RFC 4231 test case 2 for HMAC-SHA-256. -/
theorem hmacSha256_rfc4231_vector :
    hmacSha256 (strBytes "Jefe") (strBytes "what do ya want for nothing?") =
    [0x5b, 0xdc, 0xc1, 0x46, 0xbf, 0x60, 0x75, 0x4e,
     0x6a, 0x04, 0x24, 0x26, 0x08, 0x95, 0x75, 0xc7,
     0x5a, 0x00, 0x3f, 0x08, 0x9d, 0x27, 0x39, 0x83,
     0x9d, 0xec, 0x58, 0xb9, 0x64, 0xec, 0x38, 0x43] := by decide

set_option maxRecDepth 1000000 in
/-- Sanity: FIPS 180-4 two-block vector, SHA-256 of the 56-byte message
`"abcdbcdecdefdefgefghfghighijhijkijkljklmklmnlmnomnopnopq"`. -/
theorem sha256_two_block_vector :
    sha256 (strBytes "abcdbcdecdefdefgefghfghighijhijkijkljklmklmnlmnomnopnopq") =
    [0x24, 0x8d, 0x6a, 0x61, 0xd2, 0x06, 0x38, 0xb8,
     0xe5, 0xc0, 0x26, 0x93, 0x0c, 0x3e, 0x60, 0x39,
     0xa3, 0x3c, 0xe4, 0x59, 0x64, 0xff, 0x21, 0x67,
     0xf6, 0xec, 0xed, 0xd4, 0x19, 0xdb, 0x06, 0xc1] := by decide

set_option maxRecDepth 1000000 in
/-- Sanity: RFC 4231 test case 6 (131-byte key, hashed before padding). -/
theorem hmacSha256_long_key_vector :
    hmacSha256 (List.replicate 131 0xaa)
      (strBytes "Test Using Larger Than Block-Size Key - Hash Key First") =
    [0x60, 0xe4, 0x31, 0x59, 0x1e, 0xe0, 0xb6, 0x7f,
     0x0d, 0x8a, 0x26, 0xaa, 0xcb, 0xf5, 0xb7, 0x7f,
     0x8e, 0x0b, 0xc6, 0x21, 0x37, 0x28, 0xc5, 0x14,
     0x05, 0x46, 0x04, 0x0f, 0x0e, 0xe3, 0x7f, 0x54] := by decide

/-- Sanity: the civil-to-Unix arithmetic at known instants
(1970-01-01T00:00:00Z is 0, 2009-02-13T23:31:30Z is 1234567890,
2000-02-29 exists, 1900-02-29 does not). -/
theorem unixSec_known_values :
    GoTime.unixSec ⟨1970, 1, 1, 0, 0, 0, 0, 0⟩ = 0 ∧
    GoTime.unixSec ⟨2009, 2, 13, 23, 31, 30, 0, 0⟩ = 1234567890 ∧
    GoTime.unixSec ⟨2038, 1, 19, 3, 14, 8, 0, 0⟩ = 2147483648 ∧
    GoTime.unixSec ⟨2009, 2, 14, 0, 31, 30, 0, 3600⟩ = 1234567890 ∧
    daysInMonth 2 2000 = 29 ∧ daysInMonth 2 1900 = 28 ∧ daysInMonth 2 2024 = 29 := by decide

/-- SHA-256 digests are 32 bytes. -/
theorem sha256_length (msg : List Nat) : (sha256 msg).length = 32 := by
  simp [sha256, beBytes_length]

theorem hmacSha256_length (key msg : List Nat) : (hmacSha256 key msg).length = 32 :=
  sha256_length _

theorem b64Char_mem (v : Nat) : b64Char v ∈ b64Alphabet := by
  unfold b64Char
  rw [List.getD_eq_getElem?_getD]
  cases h : b64Alphabet[v]? with
  | none => simp only [h, Option.getD_none]; decide
  | some c =>
    simp only [h, Option.getD_some]
    obtain ⟨hlt, hget⟩ := List.getElem?_eq_some.mp h
    exact hget ▸ List.getElem_mem hlt

theorem b64Index_b64Char : ∀ v < 64, b64Index (b64Char v) = some v := by decide

theorem b64Alphabet_no_crlf : ∀ c ∈ b64Alphabet, c != '\r' && c != '\n' := by decide

/-- Every character the encoder emits is an alphabet character. -/
theorem b64Encode_mem (bs : List Nat) : ∀ c ∈ b64Encode bs, c ∈ b64Alphabet := by
  induction bs using b64Encode.induct with
  | case1 b1 b2 b3 rest ih =>
    intro c hc
    simp only [b64Encode, List.mem_cons] at hc
    rcases hc with h | h | h | h | h
    all_goals first
      | (subst h; exact b64Char_mem _)
      | exact ih c h
  | case2 b1 b2 =>
    intro c hc
    simp only [b64Encode, List.mem_cons] at hc
    rcases hc with h | h | h | h <;> first | (subst h; exact b64Char_mem _) | simp at h
  | case3 b1 =>
    intro c hc
    simp only [b64Encode, List.mem_cons] at hc
    rcases hc with h | h | h <;> first | (subst h; exact b64Char_mem _) | simp at h
  | case4 => intro c hc; simp [b64Encode] at hc

/-- The CR/LF filter leaves encoder output unchanged. -/
theorem stripCRLF_b64Encode (bs : List Nat) : stripCRLF (b64Encode bs) = b64Encode bs := by
  unfold stripCRLF
  exact List.filter_eq_self.mpr (fun c hc => b64Alphabet_no_crlf c (b64Encode_mem bs c hc))

theorem b64Sextets_b64Encode (bs : List Nat) (h : ∀ b ∈ bs, b < 256) :
    b64Sextets (b64Encode bs) = some (encSext bs) := by
  induction bs using b64Encode.induct with
  | case1 b1 b2 b3 rest ih =>
    have h1 : b1 < 256 := h _ (by simp)
    have h2 : b2 < 256 := h _ (by simp)
    have h3 : b3 < 256 := h _ (by simp)
    have ih' := ih (fun b hb => h b (by simp [hb]))
    simp only [b64Encode, b64Sextets, encSext, ih',
      b64Index_b64Char (b1 / 4) (by omega),
      b64Index_b64Char ((b1 % 4) * 16 + b2 / 16) (by omega),
      b64Index_b64Char ((b2 % 16) * 4 + b3 / 64) (by omega),
      b64Index_b64Char (b3 % 64) (by omega)]
  | case2 b1 b2 =>
    have h1 : b1 < 256 := h _ (by simp)
    have h2 : b2 < 256 := h _ (by simp)
    simp only [b64Encode, b64Sextets, encSext,
      b64Index_b64Char (b1 / 4) (by omega),
      b64Index_b64Char ((b1 % 4) * 16 + b2 / 16) (by omega),
      b64Index_b64Char ((b2 % 16) * 4) (by omega)]
  | case3 b1 =>
    have h1 : b1 < 256 := h _ (by simp)
    simp only [b64Encode, b64Sextets, encSext,
      b64Index_b64Char (b1 / 4) (by omega),
      b64Index_b64Char ((b1 % 4) * 16) (by omega)]
  | case4 => rfl

theorem b64Group_encSext (bs : List Nat) (h : ∀ b ∈ bs, b < 256) :
    b64Group (encSext bs) = some bs := by
  induction bs using encSext.induct with
  | case1 b1 b2 b3 rest ih =>
    have h1 : b1 < 256 := h _ (by simp)
    have h2 : b2 < 256 := h _ (by simp)
    have h3 : b3 < 256 := h _ (by simp)
    have ih' := ih (fun b hb => h b (by simp [hb]))
    simp only [encSext, b64Group, ih', Option.map_some]
    refine congrArg some ?_
    refine List.cons_eq_cons.mpr ⟨by omega, List.cons_eq_cons.mpr ⟨by omega,
      List.cons_eq_cons.mpr ⟨by omega, rfl⟩⟩⟩
  | case2 b1 b2 =>
    have h1 : b1 < 256 := h _ (by simp)
    have h2 : b2 < 256 := h _ (by simp)
    simp only [encSext, b64Group]
    refine congrArg some (List.cons_eq_cons.mpr ⟨by omega, List.cons_eq_cons.mpr ⟨by omega, rfl⟩⟩)
  | case3 b1 =>
    have h1 : b1 < 256 := h _ (by simp)
    simp only [encSext, b64Group]
    exact congrArg some (List.cons_eq_cons.mpr ⟨by omega, rfl⟩)
  | case4 => rfl

/-- Round trip of the codec's binary fields: decoding an encoded byte
sequence gives the bytes back. -/
theorem b64Decode_b64Encode (bs : List Nat) (h : ∀ b ∈ bs, b < 256) :
    b64Decode (b64Encode bs) = some bs := by
  unfold b64Decode
  rw [stripCRLF_b64Encode, b64Sextets_b64Encode bs h]
  exact b64Group_encSext bs h

theorem b64Sextets_isSome_iff (cs : List Char) :
    (b64Sextets cs).isSome ↔ ∀ c ∈ cs, c ∈ b64Alphabet := by
  induction cs with
  | nil => simp [b64Sextets]
  | cons c cs ih =>
    unfold b64Sextets b64Index
    by_cases hc : c ∈ b64Alphabet
    · cases hs : b64Sextets cs with
      | none => simp [if_pos hc, hs, hc, ← ih]
      | some vs => simp [if_pos hc, hs, hc, ← ih]
    · simp [if_neg hc, hc]

theorem b64Group_isSome_iff (vs : List Nat) :
    (b64Group vs).isSome ↔ vs.length % 4 ≠ 1 := by
  induction vs using b64Group.induct with
  | case1 => simp [b64Group]
  | case2 v => simp [b64Group]
  | case3 v1 v2 => simp [b64Group]
  | case4 v1 v2 v3 => simp [b64Group]
  | case5 v1 v2 v3 v4 rest ih =>
    simp only [b64Group, List.length_cons]
    constructor
    · intro hsome
      have : (b64Group rest).isSome := by
        cases hg : b64Group rest with
        | none => rw [hg] at hsome; simp at hsome
        | some _ => simp
      have := ih.mp this
      omega
    · intro hlen
      have : rest.length % 4 ≠ 1 := by omega
      have := ih.mpr this
      cases hg : b64Group rest with
      | none => rw [hg] at this; simp at this
      | some _ => simp [hg]

theorem b64Sextets_length (cs : List Char) (vs : List Nat)
    (h : b64Sextets cs = some vs) : vs.length = cs.length := by
  induction cs generalizing vs with
  | nil => simp [b64Sextets] at h; simp [← h]
  | cons c cs ih =>
    unfold b64Sextets at h
    cases hi : b64Index c with
    | none => rw [hi] at h; simp at h
    | some v =>
      rw [hi] at h
      cases hs : b64Sextets cs with
      | none => rw [hs] at h; simp at h
      | some ws =>
        rw [hs] at h
        simp at h
        simp [← h, ih ws hs]

/-- The code's decoder accepts a string exactly when, after Go's CR/LF
skipping, it is a valid unpadded base64url string in the specification's
sense. -/
theorem b64Decode_isSome_iff (cs : List Char) :
    (b64Decode cs).isSome ↔ specValidBase64url (stripCRLF cs) := by
  unfold b64Decode specValidBase64url
  cases hs : b64Sextets (stripCRLF cs) with
  | none =>
    have : ¬ (b64Sextets (stripCRLF cs)).isSome := by simp [hs]
    rw [b64Sextets_isSome_iff] at this
    simp [this]
  | some vs =>
    have hmem : ∀ c ∈ stripCRLF cs, c ∈ b64Alphabet := by
      rw [← b64Sextets_isSome_iff]; simp [hs]
    have hlen := b64Sextets_length _ _ hs
    rw [← hlen]
    have hg := b64Group_isSome_iff vs
    tauto

theorem fixedDigits_length (w n : Nat) : (fixedDigits w n).length = w := by
  induction w generalizing n with
  | zero => rfl
  | succ w ih => simp [fixedDigits, ih]

theorem fixedDigits_lt (w n : Nat) : ∀ d ∈ fixedDigits w n, d < 10 := by
  induction w generalizing n with
  | zero => simp [fixedDigits]
  | succ w ih =>
    intro d hd
    simp only [fixedDigits, List.mem_append, List.mem_singleton] at hd
    rcases hd with h | h
    · exact ih (n / 10) d h
    · omega

theorem digitsToNat_append_one (ds : List Nat) (d : Nat) :
    digitsToNat (ds ++ [d]) = 10 * digitsToNat ds + d := by
  unfold digitsToNat
  rw [List.foldl_append]
  rfl

theorem digitsToNat_fixedDigits (w n : Nat) (h : n < 10 ^ w) :
    digitsToNat (fixedDigits w n) = n := by
  induction w generalizing n with
  | zero =>
    have : n = 0 := by simpa using h
    simp [this, fixedDigits, digitsToNat]
  | succ w ih =>
    have hdiv : n / 10 < 10 ^ w := by
      rw [Nat.div_lt_iff_lt_mul (by omega)]
      calc n < 10 ^ (w + 1) := h
        _ = 10 ^ w * 10 := by rw [Nat.pow_succ]
    rw [fixedDigits, digitsToNat_append_one, ih _ hdiv]
    omega

theorem padNum_eq_fixedDigits (w n : Nat) (h : n < 10 ^ w) :
    padNum w n = fixedDigits w n := if_pos h

theorem digitChar_spec : ∀ d < 10, digitVal (digitChar d) = d ∧ isDigitChar (digitChar d) := by
  decide

theorem map_digitVal_digitChar (ds : List Nat) (h : ∀ d ∈ ds, d < 10) :
    (ds.map digitChar).map digitVal = ds := by
  rw [List.map_map]
  have : ∀ d ∈ ds, (digitVal ∘ digitChar) d = id d :=
    fun d hd => (digitChar_spec d (h d hd)).1
  rw [List.map_congr_left this, List.map_id]

theorem take_append_of_length (xs ys : List α) (n : Nat) (h : xs.length = n) :
    (xs ++ ys).take n = xs := by
  subst h; exact List.take_left xs ys

theorem drop_append_of_length (xs ys : List α) (n : Nat) (h : xs.length = n) :
    (xs ++ ys).drop n = ys := by
  subst h; exact List.drop_left xs ys

/-- Field extraction from the 4+2+2+2+2+2 concatenation of the timestamp. -/
theorem extract6 {α : Type} (a b c d e f : List α)
    (la : a.length = 4) (lb : b.length = 2) (lc : c.length = 2)
    (ld : d.length = 2) (le : e.length = 2) (lf : f.length = 2) :
    (a ++ (b ++ (c ++ (d ++ (e ++ f))))).take 4 = a ∧
    ((a ++ (b ++ (c ++ (d ++ (e ++ f))))).drop 4).take 2 = b ∧
    ((a ++ (b ++ (c ++ (d ++ (e ++ f))))).drop 6).take 2 = c ∧
    ((a ++ (b ++ (c ++ (d ++ (e ++ f))))).drop 8).take 2 = d ∧
    ((a ++ (b ++ (c ++ (d ++ (e ++ f))))).drop 10).take 2 = e ∧
    ((a ++ (b ++ (c ++ (d ++ (e ++ f))))).drop 12).take 2 = f := by
  have d4 : (a ++ (b ++ (c ++ (d ++ (e ++ f))))).drop 4 = b ++ (c ++ (d ++ (e ++ f))) :=
    List.drop_left' la
  have d6 : (a ++ (b ++ (c ++ (d ++ (e ++ f))))).drop 6 = c ++ (d ++ (e ++ f)) := by
    rw [show (6 : Nat) = 4 + 2 by rfl, ← List.drop_drop, d4]
    exact List.drop_left' lb
  have d8 : (a ++ (b ++ (c ++ (d ++ (e ++ f))))).drop 8 = d ++ (e ++ f) := by
    rw [show (8 : Nat) = 6 + 2 by rfl, ← List.drop_drop, d6]
    exact List.drop_left' lc
  have d10 : (a ++ (b ++ (c ++ (d ++ (e ++ f))))).drop 10 = e ++ f := by
    rw [show (10 : Nat) = 8 + 2 by rfl, ← List.drop_drop, d8]
    exact List.drop_left' ld
  have d12 : (a ++ (b ++ (c ++ (d ++ (e ++ f))))).drop 12 = f := by
    rw [show (12 : Nat) = 10 + 2 by rfl, ← List.drop_drop, d10]
    exact List.drop_left' le
  refine ⟨List.take_left' la, ?_, ?_, ?_, ?_, ?_⟩
  · rw [d4]; exact List.take_left' lb
  · rw [d6]; exact List.take_left' lc
  · rw [d8]; exact List.take_left' ld
  · rw [d10]; exact List.take_left' le
  · rw [d12]; exact List.take_of_length_le (le_of_eq lf)

/-- Parsing the formatted timestamp of a valid time with a 4-digit year
recovers exactly its six civil fields. -/
theorem parseTimestamp_formatTimestamp (t : GoTime) (hv : t.ValidCivil)
    (hy : t.year ≤ 9999) :
    parseTimestamp (formatTimestamp t) =
      some (t.year, t.month, t.day, t.hour, t.minute, t.second) := by
  obtain ⟨hm1, hm2, hd1, hd2, hh, hmi, hs, -⟩ := hv
  have hdm : t.day ≤ 31 := by
    have h31 : daysInMonth t.month t.year ≤ 31 := by
      unfold daysInMonth
      split
      any_goals omega
      split <;> omega
    omega
  have hy4 : t.year < 10 ^ 4 := by omega
  have hmo2 : t.month < 10 ^ 2 := by omega
  have hd2' : t.day < 10 ^ 2 := by omega
  have hh2 : t.hour < 10 ^ 2 := by omega
  have hmi2 : t.minute < 10 ^ 2 := by omega
  have hs2 : t.second < 10 ^ 2 := by omega
  have hfmt : formatTimestamp t =
      (fixedDigits 4 t.year ++ fixedDigits 2 t.month ++ fixedDigits 2 t.day ++
        fixedDigits 2 t.hour ++ fixedDigits 2 t.minute ++ fixedDigits 2 t.second).map
        digitChar := by
    unfold formatTimestamp
    rw [padNum_eq_fixedDigits 4 t.year hy4, padNum_eq_fixedDigits 2 t.month hmo2,
      padNum_eq_fixedDigits 2 t.day hd2', padNum_eq_fixedDigits 2 t.hour hh2,
      padNum_eq_fixedDigits 2 t.minute hmi2, padNum_eq_fixedDigits 2 t.second hs2]
  have hall : ∀ d ∈ fixedDigits 4 t.year ++ fixedDigits 2 t.month ++ fixedDigits 2 t.day ++
      fixedDigits 2 t.hour ++ fixedDigits 2 t.minute ++ fixedDigits 2 t.second, d < 10 := by
    intro d hd
    simp only [List.mem_append] at hd
    rcases hd with ((((h | h) | h) | h) | h) | h <;> exact fixedDigits_lt _ _ d h
  have hlen : (formatTimestamp t).length = 14 := by
    rw [hfmt]
    simp [fixedDigits_length]
  have hdig : ∀ c ∈ formatTimestamp t, isDigitChar c := by
    rw [hfmt]
    intro c hc
    obtain ⟨d, hd, rfl⟩ := List.mem_map.mp hc
    exact (digitChar_spec d (hall d hd)).2
  unfold parseTimestamp
  rw [if_pos ⟨hlen, hdig⟩]
  have hdsP : (formatTimestamp t).map digitVal =
      fixedDigits 4 t.year ++ (fixedDigits 2 t.month ++ (fixedDigits 2 t.day ++
        (fixedDigits 2 t.hour ++ (fixedDigits 2 t.minute ++ fixedDigits 2 t.second)))) := by
    rw [hfmt, map_digitVal_digitChar _ hall]
    simp [List.append_assoc]
  obtain ⟨e1, e2, e3, e4, e5, e6⟩ :=
    extract6 (fixedDigits 4 t.year) (fixedDigits 2 t.month) (fixedDigits 2 t.day)
      (fixedDigits 2 t.hour) (fixedDigits 2 t.minute) (fixedDigits 2 t.second)
      (fixedDigits_length 4 t.year) (fixedDigits_length 2 t.month)
      (fixedDigits_length 2 t.day) (fixedDigits_length 2 t.hour)
      (fixedDigits_length 2 t.minute) (fixedDigits_length 2 t.second)
  simp only [hdsP, e1, e2, e3, e4, e5, e6,
    digitsToNat_fixedDigits 4 t.year hy4, digitsToNat_fixedDigits 2 t.month hmo2,
    digitsToNat_fixedDigits 2 t.day hd2', digitsToNat_fixedDigits 2 t.hour hh2,
    digitsToNat_fixedDigits 2 t.minute hmi2, digitsToNat_fixedDigits 2 t.second hs2]
  rw [if_pos ⟨hm1, hm2, hd1, hd2, hh, hmi, hs⟩]

/-! ## Properties of the codec -/

theorem splitDot_no_dot (p : List Char) (h : '.' ∉ p) : splitDot p = [p] := by
  induction p with
  | nil => rfl
  | cons c rest ih =>
    have hc : c ≠ '.' := fun hc => h (hc ▸ List.mem_cons_self c rest)
    have hr : '.' ∉ rest := fun hr => h (List.mem_cons_of_mem c hr)
    simp only [splitDot, if_neg hc, ih hr]

theorem splitDot_append (p rest : List Char) (h : '.' ∉ p) :
    splitDot (p ++ '.' :: rest) = p :: splitDot rest := by
  induction p with
  | nil => simp [splitDot]
  | cons c p ih =>
    have hc : c ≠ '.' := fun hc => h (hc ▸ List.mem_cons_self c p)
    have hp : '.' ∉ p := fun hp => h (List.mem_cons_of_mem c hp)
    simp only [List.cons_append, splitDot, if_neg hc]
    rw [show List.append p ('.' :: rest) = p ++ '.' :: rest from rfl, ih hp]

theorem b64Alphabet_no_dot : ∀ c ∈ b64Alphabet, c ≠ '.' := by decide

theorem Encode_no_dot (bs : List Nat) : '.' ∉ Encode bs := by
  intro h
  exact b64Alphabet_no_dot '.' (b64Encode_mem bs '.' h) rfl

theorem natDigitsBE_lt (n : Nat) : ∀ d ∈ natDigitsBE n, d < 10 := by
  induction n using natDigitsBE.induct with
  | case1 n h => intro d hd; rw [natDigitsBE, dif_pos h] at hd; simp at hd; omega
  | case2 n h ih =>
    intro d hd
    rw [natDigitsBE, dif_neg h] at hd
    rcases List.mem_append.mp hd with hm | hm
    · exact ih d hm
    · simp at hm; omega

theorem padNum_lt (w n : Nat) : ∀ d ∈ padNum w n, d < 10 := by
  unfold padNum
  split
  · exact fixedDigits_lt w n
  · exact natDigitsBE_lt n

theorem digitChar_ne_dot : ∀ d < 10, digitChar d ≠ '.' := by decide

theorem formatTimestamp_no_dot (t : GoTime) : '.' ∉ formatTimestamp t := by
  intro h
  obtain ⟨d, hd, hdc⟩ := List.mem_map.mp h
  have hlt : d < 10 := by
    simp only [List.mem_append] at hd
    rcases hd with ((((h' | h') | h') | h') | h') | h' <;> exact padNum_lt _ _ d h'
  exact digitChar_ne_dot d hlt hdc

/-- Splitting a serialized token recovers its three fields. -/
theorem splitDot_TokenString (t : Token) :
    splitDot t.String = [Encode t.Data, formatTimestamp t.Expiry, Encode t.Signature] := by
  unfold Token.String
  rw [splitDot_append _ _ (Encode_no_dot t.Data),
    splitDot_append _ _ (formatTimestamp_no_dot t.Expiry),
    splitDot_no_dot _ (Encode_no_dot t.Signature)]

theorem daysInMonth_le_31 (m y : Nat) : daysInMonth m y ≤ 31 := by
  unfold daysInMonth
  split
  any_goals omega
  split <;> omega

theorem GoTime.ValidCivil.day_le_31 {t : GoTime} (hv : t.ValidCivil) : t.day ≤ 31 := by
  obtain ⟨-, -, -, hd, -⟩ := hv
  exact le_trans hd (daysInMonth_le_31 t.month t.year)

/-- For a valid time with a 4-digit year the rendered timestamp is the six
zero-padded fields; stated via `fixedDigits` for reuse. -/
theorem formatTimestamp_eq (t : GoTime) (hv : t.ValidCivil) (hy : t.year ≤ 9999) :
    formatTimestamp t =
      (fixedDigits 4 t.year ++ fixedDigits 2 t.month ++ fixedDigits 2 t.day ++
        fixedDigits 2 t.hour ++ fixedDigits 2 t.minute ++ fixedDigits 2 t.second).map
        digitChar := by
  obtain ⟨hm1, hm2, hd1, hd2, hh, hmi, hs, -⟩ := hv
  have hdm : t.day ≤ 31 := le_trans hd2 (daysInMonth_le_31 t.month t.year)
  unfold formatTimestamp
  rw [padNum_eq_fixedDigits 4 t.year (by omega), padNum_eq_fixedDigits 2 t.month (by omega),
    padNum_eq_fixedDigits 2 t.day (by omega), padNum_eq_fixedDigits 2 t.hour (by omega),
    padNum_eq_fixedDigits 2 t.minute (by omega), padNum_eq_fixedDigits 2 t.second (by omega)]

/-- The rendered timestamp of a valid time with a 4-digit year is exactly
14 ASCII digits. -/
theorem formatTimestamp_digits (t : GoTime) (hv : t.ValidCivil) (hy : t.year ≤ 9999) :
    (formatTimestamp t).length = 14 ∧ ∀ c ∈ formatTimestamp t, isDigitChar c := by
  rw [formatTimestamp_eq t hv hy]
  constructor
  · simp [fixedDigits_length]
  · intro c hc
    obtain ⟨d, hd, rfl⟩ := List.mem_map.mp hc
    have hlt : d < 10 := by
      simp only [List.mem_append] at hd
      rcases hd with ((((h' | h') | h') | h') | h') | h' <;> exact fixedDigits_lt _ _ d h'
    exact (digitChar_spec d hlt).2

/-- Deserializing a serialized token: data and signature come back byte for
byte, the expiry comes back with the same civil fields, zero nanoseconds,
and the decoder's local zone offset. -/
theorem FromString_TokenString (localOff : Int) (t : Token)
    (hd : ∀ b ∈ t.Data, b < 256) (hsig : ∀ b ∈ t.Signature, b < 256)
    (hv : t.Expiry.ValidCivil) (hy : t.Expiry.year ≤ 9999) :
    FromString localOff t.String =
      .ok ⟨t.Data,
        ⟨t.Expiry.year, t.Expiry.month, t.Expiry.day, t.Expiry.hour,
          t.Expiry.minute, t.Expiry.second, 0, localOff⟩, t.Signature⟩ := by
  unfold FromString
  rw [splitDot_TokenString]
  simp only [Encode, b64Decode_b64Encode t.Data hd, b64Decode_b64Encode t.Signature hsig,
    parseTimestamp_formatTimestamp t.Expiry hv hy]

theorem createSignature_eq (m : Mint) (e : Entropy) (data : List Nat) (expires : GoTime) :
    m.createSignature e data expires =
      (postMint m e, hmacSha256 (postMint m e).key (data ++ beBytes 8 (unixU64 expires))) :=
  rfl

theorem postMint_of_secret (s : List Nat) (b : Bool) (e : Entropy) :
    postMint ⟨some s, b⟩ e = ⟨some s, true⟩ := by
  unfold postMint
  cases b <;> simp

theorem postMint_onceDone (m : Mint) (e : Entropy) : (postMint m e).onceDone = true := by
  unfold postMint
  split
  · assumption
  · rfl

theorem postMint_idem (m : Mint) (e e' : Entropy) :
    postMint (postMint m e) e' = postMint m e := by
  unfold postMint
  by_cases h : m.onceDone = true
  · simp [h]
  · simp [h]

theorem randBytes_length (e : Entropy) (n : Nat) : (randBytes e n).length = n := by
  simp [randBytes]

/-- Any single call on a mint with secret `s` keeps the secret and computes
exactly the MAC keyed by `s` (if it computes one). -/
theorem applyOp_of_secret (s : List Nat) (b : Bool) (op : Op) :
    ∃ b', applyOp ⟨some s, b⟩ op = (⟨some s, b'⟩, opMac s op) := by
  cases op with
  | sign e data expires =>
    exact ⟨true, by simp [applyOp, Mint.Sign, createSignature_eq,
      postMint_of_secret, Mint.key, opMac]⟩
  | generate e ed dataLen expires =>
    exact ⟨true, by simp [applyOp, Mint.Generate, Mint.Sign, createSignature_eq,
      postMint_of_secret, Mint.key, opMac]⟩
  | verify e now tok =>
    by_cases h : now.After tok.Expiry
    · exact ⟨b, by simp [applyOp, h, opMac]⟩
    · exact ⟨true, by simp [applyOp, h, createSignature_eq,
        postMint_of_secret, Mint.key, opMac]⟩

/-- Over any call sequence, a mint with secret `s` keeps the secret, and
the trace of computed MACs is pointwise the MAC keyed by `s`. -/
theorem runOps_of_secret (s : List Nat) (b : Bool) (ops : List Op) :
    (runOps ⟨some s, b⟩ ops).1.secret = some s ∧
      (runOps ⟨some s, b⟩ ops).2 = ops.map (opMac s) := by
  induction ops generalizing b with
  | nil => exact ⟨rfl, rfl⟩
  | cons op ops ih =>
    obtain ⟨b', hb'⟩ := applyOp_of_secret s b op
    simp only [runOps, hb', List.map_cons]
    exact ⟨(ih b').1, by rw [(ih b').2]⟩

/-- The timestamp parser accepts exactly the spec's valid timestamps. -/
theorem parseTimestamp_isSome_iff (cs : List Char) :
    (parseTimestamp cs).isSome ↔ specValidTimestamp cs := by
  unfold parseTimestamp specValidTimestamp
  by_cases h1 : cs.length = 14 ∧ ∀ c ∈ cs, isDigitChar c
  · rw [if_pos h1]
    by_cases h2 : 1 ≤ digitsToNat (((cs.map digitVal).drop 4).take 2) ∧
        digitsToNat (((cs.map digitVal).drop 4).take 2) ≤ 12 ∧
        1 ≤ digitsToNat (((cs.map digitVal).drop 6).take 2) ∧
        digitsToNat (((cs.map digitVal).drop 6).take 2) ≤
          daysInMonth (digitsToNat (((cs.map digitVal).drop 4).take 2))
            (digitsToNat ((cs.map digitVal).take 4)) ∧
        digitsToNat (((cs.map digitVal).drop 8).take 2) ≤ 23 ∧
        digitsToNat (((cs.map digitVal).drop 10).take 2) ≤ 59 ∧
        digitsToNat (((cs.map digitVal).drop 12).take 2) ≤ 59
    · rw [if_pos h2]
      simp only [Option.isSome_some, true_iff]
      exact ⟨h1.1, h1.2, h2⟩
    · rw [if_neg h2]
      simp only [Option.isSome_none, Bool.false_eq_true, false_iff]
      intro hall
      exact h2 hall.2.2
  · rw [if_neg h1]
    simp only [Option.isSome_none, Bool.false_eq_true, false_iff]
    intro hall
    exact h1 ⟨hall.1, hall.2.1⟩

/-- An unexpired token is verified by recomputing the MAC under the mint's
(possibly just-established) key and comparing. -/
theorem Verify_eq_of_not_after (m : Mint) (e : Entropy) (now : GoTime) (b : Token)
    (h : now.After b.Expiry = false) :
    m.Verify e now b =
      (postMint m e,
        if b.Signature = hmacSha256 (postMint m e).key (b.Data ++ beBytes 8 (unixU64 b.Expiry))
        then .ok b else .error .invalidSignature) := by
  unfold Mint.Verify
  simp only [h, Bool.false_eq_true, if_false, createSignature_eq]
  split
  · rfl
  · rfl

/-! ## Further helper lemmas for the claim theorems -/

theorem Sign_eq (m : Mint) (e : Entropy) (data : List Nat) (expires : GoTime) :
    m.Sign e data expires =
      (postMint m e,
        ⟨data, expires, hmacSha256 (postMint m e).key (data ++ beBytes 8 (unixU64 expires))⟩) :=
  rfl

/-! ## The claims -/

/-- C1: for a mint holding secret `s`, `Sign` returns a token whose
`Signature` is exactly the 32-byte HMAC-SHA-256 of
`data ++ big-endian-64(unix_seconds(expiry))` under `s`, and on an
unexpired token `Verify` succeeds exactly when the token's signature
equals this MAC recomputed from the token's own data and expiry. -/
theorem c1_signature_is_hmac (s : List Nat) (b : Bool) (e e' : Entropy)
    (data : List Nat) (expires now : GoTime) (tok : Token)
    (hne : now.After tok.Expiry = false) :
    ((Mint.Sign ⟨some s, b⟩ e data expires).2.Signature =
        hmacSha256 s (data ++ beBytes 8 (unixU64 expires)) ∧
      (Mint.Sign ⟨some s, b⟩ e data expires).2.Signature.length = 32) ∧
    ((Mint.Verify ⟨some s, b⟩ e' now tok).2 = .ok tok ↔
      tok.Signature = hmacSha256 s (tok.Data ++ beBytes 8 (unixU64 tok.Expiry))) := by
  refine ⟨⟨?_, ?_⟩, ?_⟩
  · rw [Sign_eq, postMint_of_secret]; rfl
  · rw [Sign_eq]
    exact hmacSha256_length _ _
  · rw [Verify_eq_of_not_after _ _ _ _ hne, postMint_of_secret]
    by_cases hsig : tok.Signature =
        hmacSha256 s (tok.Data ++ beBytes 8 (unixU64 tok.Expiry))
    · simp only [Mint.key, Option.getD_some]
      simp [hsig]
    · simp only [Mint.key, Option.getD_some]
      simp [hsig]

set_option maxRecDepth 1000000 in
/-- Witness for C1 at a concrete secret, payload, expiry and token. -/
theorem c1_signature_is_hmac_witness :
    ((Mint.Sign ⟨some [107], true⟩ entZero [97, 98, 99] ⟨2030, 1, 1, 0, 0, 0, 0, 0⟩).2.Signature =
        hmacSha256 [107] ([97, 98, 99] ++ beBytes 8 (unixU64 ⟨2030, 1, 1, 0, 0, 0, 0, 0⟩)) ∧
      (Mint.Sign ⟨some [107], true⟩ entZero [97, 98, 99]
        ⟨2030, 1, 1, 0, 0, 0, 0, 0⟩).2.Signature.length = 32) ∧
    ((Mint.Verify ⟨some [107], true⟩ entZero ⟨2029, 1, 1, 0, 0, 0, 0, 0⟩
          ⟨[97, 98, 99], ⟨2030, 1, 1, 0, 0, 0, 0, 0⟩, [0]⟩).2 =
        .ok ⟨[97, 98, 99], ⟨2030, 1, 1, 0, 0, 0, 0, 0⟩, [0]⟩ ↔
      ([0] : List Nat) =
        hmacSha256 [107] ([97, 98, 99] ++ beBytes 8 (unixU64 ⟨2030, 1, 1, 0, 0, 0, 0, 0⟩))) :=
  c1_signature_is_hmac [107] true entZero entZero [97, 98, 99] ⟨2030, 1, 1, 0, 0, 0, 0, 0⟩
    ⟨2029, 1, 1, 0, 0, 0, 0, 0⟩ ⟨[97, 98, 99], ⟨2030, 1, 1, 0, 0, 0, 0, 0⟩, [0]⟩ (by decide)

/-- C2: when the current time is strictly after the expiry, `Verify` fails
`expired` without touching the signature or the mint state, whatever the
signature is; when it is not, `Verify` never returns `expired`. -/
theorem c2_expiry_precedence (m : Mint) (e : Entropy) (now : GoTime) (tok : Token) :
    (tok.Expiry.instantNs < now.instantNs →
      m.Verify e now tok = (m, .error .expired)) ∧
    (¬ tok.Expiry.instantNs < now.instantNs →
      (m.Verify e now tok).2 ≠ .error .expired) := by
  constructor
  · intro h
    unfold Mint.Verify
    simp [GoTime.After, h]
  · intro h
    have hne : now.After tok.Expiry = false := by simp [GoTime.After, h]
    rw [Verify_eq_of_not_after _ _ _ _ hne]
    split
    · simp
    · simp

set_option maxRecDepth 1000000 in
/-- Witness for C2: an expired token with a garbage signature still fails
`expired`, and an unexpired one never does. -/
theorem c2_expiry_precedence_witness :
    Mint.Verify ⟨some [107], true⟩ entZero ⟨2030, 1, 1, 0, 0, 0, 0, 0⟩
        ⟨[97], ⟨2029, 1, 1, 0, 0, 0, 0, 0⟩, [1, 2, 3]⟩ =
      (⟨some [107], true⟩, .error .expired) ∧
    (Mint.Verify ⟨some [107], true⟩ entZero ⟨2028, 1, 1, 0, 0, 0, 0, 0⟩
        ⟨[97], ⟨2029, 1, 1, 0, 0, 0, 0, 0⟩, [1, 2, 3]⟩).2 ≠ .error .expired :=
  ⟨(c2_expiry_precedence _ entZero _ _).1 (by decide),
   (c2_expiry_precedence _ entZero _ _).2 (by decide)⟩

/-- C3 (counterexample): a valid token whose expiry is in UTC (offset 0),
deserialized on a machine whose local zone is +01:00 (offset 3600), comes
back with a different expiry instant: the round trip does not return the
expiry truncated to whole seconds when the token's zone differs from the
decoder's local zone. -/
theorem c3_roundtrip_zone_counterexample :
    FromString 3600 (Token.String ⟨[], ⟨2025, 1, 1, 12, 0, 0, 0, 0⟩, []⟩) =
      .ok ⟨[], ⟨2025, 1, 1, 12, 0, 0, 0, 3600⟩, []⟩ ∧
    ¬ GoTime.Equal ⟨2025, 1, 1, 12, 0, 0, 0, 3600⟩
      (GoTime.truncSec ⟨2025, 1, 1, 12, 0, 0, 0, 0⟩) := by
  decide

/-- C3 (amended): deserializing a valid serialized token always returns the
payload and signature byte for byte; the expiry comes back with the same
civil fields, zero nanoseconds and the decoder's local zone offset, and it
equals the original expiry truncated to whole seconds whenever the token
expiry's zone offset coincides with the decoder's local zone offset. -/
theorem c3_roundtrip_amended (localOff : Int) (t : Token)
    (hd : ∀ x ∈ t.Data, x < 256) (hsig : ∀ x ∈ t.Signature, x < 256)
    (hv : t.Expiry.ValidCivil) (hy : t.Expiry.year ≤ 9999) :
    FromString localOff t.String =
      .ok ⟨t.Data,
        ⟨t.Expiry.year, t.Expiry.month, t.Expiry.day, t.Expiry.hour,
          t.Expiry.minute, t.Expiry.second, 0, localOff⟩, t.Signature⟩ ∧
    (t.Expiry.offset = localOff →
      GoTime.Equal
        ⟨t.Expiry.year, t.Expiry.month, t.Expiry.day, t.Expiry.hour,
          t.Expiry.minute, t.Expiry.second, 0, localOff⟩ t.Expiry.truncSec) := by
  refine ⟨FromString_TokenString localOff t hd hsig hv hy, ?_⟩
  intro hoff
  subst hoff
  rfl

/-- Witness for C3 (amended) at a concrete token in the decoder's zone. -/
theorem c3_roundtrip_amended_witness :
    FromString 3600
        (Token.String ⟨[97, 98, 99], ⟨2025, 6, 15, 12, 30, 45, 123456789, 3600⟩, [1, 2, 3]⟩) =
      .ok ⟨[97, 98, 99], ⟨2025, 6, 15, 12, 30, 45, 0, 3600⟩, [1, 2, 3]⟩ ∧
    GoTime.Equal ⟨2025, 6, 15, 12, 30, 45, 0, 3600⟩
      (GoTime.truncSec ⟨2025, 6, 15, 12, 30, 45, 123456789, 3600⟩) := by
  have h := c3_roundtrip_amended 3600
    ⟨[97, 98, 99], ⟨2025, 6, 15, 12, 30, 45, 123456789, 3600⟩, [1, 2, 3]⟩
    (by decide) (by decide) (by decide) (by decide)
  exact ⟨h.1, h.2 rfl⟩

/-- C4: for every payload (any length, empty included), any mint, and any
expiry strictly later than the verification time, signing succeeds and
verifying the signed token with the same authority succeeds, returning the
token with its payload unchanged. -/
theorem c4_sign_then_verify (m : Mint) (e e' : Entropy) (data : List Nat)
    (expires now : GoTime) (hfut : now.instantNs < expires.instantNs) :
    ((m.Sign e data expires).1.Verify e' now (m.Sign e data expires).2).2 =
      .ok (m.Sign e data expires).2 ∧
    (m.Sign e data expires).2.Data = data := by
  have hne : now.After expires = false := by
    simp only [GoTime.After, decide_eq_false_iff_not]
    omega
  constructor
  · have hv := Verify_eq_of_not_after (postMint m e) e' now
      ⟨data, expires, hmacSha256 (postMint m e).key (data ++ beBytes 8 (unixU64 expires))⟩ hne
    simp only [Sign_eq]
    rw [hv, postMint_idem]
    simp
  · rfl

set_option maxRecDepth 1000000 in
/-- Witness for C4: an empty payload signed by a zero-value mint verifies. -/
theorem c4_sign_then_verify_witness :
    ((Mint.zero.Sign entZero [] ⟨2030, 1, 1, 0, 0, 0, 0, 0⟩).1.Verify entZero
        ⟨2029, 1, 1, 0, 0, 0, 0, 0⟩ (Mint.zero.Sign entZero [] ⟨2030, 1, 1, 0, 0, 0, 0, 0⟩).2).2 =
      .ok (Mint.zero.Sign entZero [] ⟨2030, 1, 1, 0, 0, 0, 0, 0⟩).2 ∧
    (Mint.zero.Sign entZero [] ⟨2030, 1, 1, 0, 0, 0, 0, 0⟩).2.Data = [] :=
  c4_sign_then_verify Mint.zero entZero entZero [] ⟨2030, 1, 1, 0, 0, 0, 0, 0⟩
    ⟨2029, 1, 1, 0, 0, 0, 0, 0⟩ (by decide)

/-- C5 (counterexample): Go's base64 decoder skips CR and LF, so `FromString`
succeeds on a first part that is not a valid unpadded base64url string (it
contains a line feed): the claim's "fails whenever the part is not valid
base64url" is too strong. -/
theorem c5_crlf_counterexample :
    FromString 0 ("YW\nJj.20250101000000.AA".data) =
      .ok ⟨[97, 98, 99], ⟨2025, 1, 1, 0, 0, 0, 0, 0⟩, [0]⟩ ∧
    ¬ specValidBase64url ("YW\nJj".data) := by
  decide

/-- C5 (amended): `FromString` is total and classifies every input: a
format error unless splitting on `"."` yields exactly 3 parts; then a
data-decode error when the first part (after the decoder's CR/LF
skipping) is not valid unpadded base64url; then an expiry-parse error when
the second part is not 14 digits forming a real date-time; then a
signature-decode error when the third part (after CR/LF skipping) is not
valid unpadded base64url; and success on all remaining inputs. -/
theorem c5_fromString_taxonomy (localOff : Int) (s : List Char) :
    ((splitDot s).length ≠ 3 → FromString localOff s = .error .format) ∧
    (∀ p0 p1 p2, splitDot s = [p0, p1, p2] →
      (¬ specValidBase64url (stripCRLF p0) → FromString localOff s = .error .dataDecode) ∧
      (specValidBase64url (stripCRLF p0) → ¬ specValidTimestamp p1 →
        FromString localOff s = .error .expiryParse) ∧
      (specValidBase64url (stripCRLF p0) → specValidTimestamp p1 →
        ¬ specValidBase64url (stripCRLF p2) → FromString localOff s = .error .sigDecode) ∧
      (specValidBase64url (stripCRLF p0) → specValidTimestamp p1 →
        specValidBase64url (stripCRLF p2) →
        ∃ t : Token, FromString localOff s = .ok t)) := by
  constructor
  · intro hlen
    unfold FromString
    rcases hsp : splitDot s with _ | ⟨p0, _ | ⟨p1, _ | ⟨p2, _ | ⟨p3, rest⟩⟩⟩⟩
    · rfl
    · rfl
    · rfl
    · rw [hsp] at hlen; simp at hlen
    · rfl
  · intro p0 p1 p2 hsp
    have hb0 := b64Decode_isSome_iff p0
    have hb2 := b64Decode_isSome_iff p2
    have ht := parseTimestamp_isSome_iff p1
    refine ⟨?_, ?_, ?_, ?_⟩
    · intro hnot
      have h0 : b64Decode p0 = none := by
        rw [← Option.not_isSome_iff_eq_none, hb0]; exact hnot
      simp [FromString, hsp, h0]
    · intro hp0 hnot
      obtain ⟨d, hd⟩ := Option.isSome_iff_exists.mp (hb0.mpr hp0)
      have h1 : parseTimestamp p1 = none := by
        rw [← Option.not_isSome_iff_eq_none, ht]; exact hnot
      simp [FromString, hsp, hd, h1]
    · intro hp0 hp1 hnot
      obtain ⟨d, hd⟩ := Option.isSome_iff_exists.mp (hb0.mpr hp0)
      obtain ⟨⟨y, mo, dd, hh, mi, ss⟩, hts⟩ := Option.isSome_iff_exists.mp (ht.mpr hp1)
      have h2 : b64Decode p2 = none := by
        rw [← Option.not_isSome_iff_eq_none, hb2]; exact hnot
      simp [FromString, hsp, hd, hts, h2]
    · intro hp0 hp1 hp2
      obtain ⟨d, hd⟩ := Option.isSome_iff_exists.mp (hb0.mpr hp0)
      obtain ⟨⟨y, mo, dd, hh, mi, ss⟩, hts⟩ := Option.isSome_iff_exists.mp (ht.mpr hp1)
      obtain ⟨sg, hsg⟩ := Option.isSome_iff_exists.mp (hb2.mpr hp2)
      exact ⟨⟨d, ⟨y, mo, dd, hh, mi, ss, 0, localOff⟩, sg⟩,
        by simp [FromString, hsp, hd, hts, hsg]⟩

/-- Witness for C5 (amended): each branch at a concrete input. -/
theorem c5_fromString_taxonomy_witness :
    FromString 0 ("ab".data) = .error .format ∧
    FromString 0 ("=.20250101000000.AA".data) = .error .dataDecode ∧
    FromString 0 ("AA.2025010100000x.AA".data) = .error .expiryParse ∧
    FromString 0 ("AA.20250101000000.=".data) = .error .sigDecode ∧
    (∃ t : Token, FromString 0 ("AA.20250101000000.AA".data) = .ok t) := by
  refine ⟨(c5_fromString_taxonomy 0 ("ab".data)).1 (by decide), ?_, ?_, ?_, ?_⟩
  · exact ((c5_fromString_taxonomy 0 ("=.20250101000000.AA".data)).2
      ("=".data) ("20250101000000".data) ("AA".data) (by decide)).1 (by decide)
  · exact (((c5_fromString_taxonomy 0 ("AA.2025010100000x.AA".data)).2
      ("AA".data) ("2025010100000x".data) ("AA".data) (by decide)).2).1 (by decide) (by decide)
  · exact ((((c5_fromString_taxonomy 0 ("AA.20250101000000.=".data)).2
      ("AA".data) ("20250101000000".data) ("=".data) (by decide)).2).2).1
      (by decide) (by decide) (by decide)
  · exact ((((c5_fromString_taxonomy 0 ("AA.20250101000000.AA".data)).2
      ("AA".data) ("20250101000000".data) ("AA".data) (by decide)).2).2).2
      (by decide) (by decide) (by decide)

set_option maxRecDepth 1000000 in
/-- C6 (counterexample): incrementing a valid token's expiry by half a
second — a nonzero amount that does not change the whole-second Unix
value — and verifying at a time not past the new expiry still succeeds:
the claim's "any nonzero amount yields the invalid-signature error" is
too strong, because the MAC covers only whole Unix seconds. -/
theorem c6_subsecond_counterexample :
    (Mint.Verify ⟨some [107], true⟩ entZero ⟨2029, 12, 31, 0, 0, 0, 0, 0⟩
        (Mint.Sign ⟨some [107], true⟩ entZero [97, 98, 99] ⟨2030, 1, 1, 0, 0, 0, 0, 0⟩).2).2 =
      .ok (Mint.Sign ⟨some [107], true⟩ entZero [97, 98, 99] ⟨2030, 1, 1, 0, 0, 0, 0, 0⟩).2 ∧
    GoTime.instantNs ⟨2030, 1, 1, 0, 0, 0, 500000000, 0⟩ ≠
      GoTime.instantNs ⟨2030, 1, 1, 0, 0, 0, 0, 0⟩ ∧
    GoTime.After ⟨2029, 12, 31, 0, 0, 0, 0, 0⟩ ⟨2030, 1, 1, 0, 0, 0, 500000000, 0⟩ = false ∧
    (Mint.Verify ⟨some [107], true⟩ entZero ⟨2029, 12, 31, 0, 0, 0, 0, 0⟩
        ⟨[97, 98, 99], ⟨2030, 1, 1, 0, 0, 0, 500000000, 0⟩,
          (Mint.Sign ⟨some [107], true⟩ entZero [97, 98, 99]
            ⟨2030, 1, 1, 0, 0, 0, 0, 0⟩).2.Signature⟩).2 =
      .ok ⟨[97, 98, 99], ⟨2030, 1, 1, 0, 0, 0, 500000000, 0⟩,
          (Mint.Sign ⟨some [107], true⟩ entZero [97, 98, 99]
            ⟨2030, 1, 1, 0, 0, 0, 0, 0⟩).2.Signature⟩ := by
  decide

/-- C6 (amended): given a token the authority verifies successfully,
changing its expiry (without resigning) to one whose recomputed
HMAC-SHA-256 differs from the token's signature — as any change of the
whole-second Unix value does in the absence of an HMAC collision — and
verifying at a time not past the new expiry yields the invalid-signature
error.  (Changes that keep the whole-second Unix value never invalidate;
see the C9 theorem.) -/
theorem c6_tamper_amended (s : List Nat) (b : Bool) (e e' : Entropy) (tok : Token)
    (now now' eNew : GoTime)
    (_hok : (Mint.Verify ⟨some s, b⟩ e now tok).2 = .ok tok)
    (hdiff : hmacSha256 s (tok.Data ++ beBytes 8 (unixU64 eNew)) ≠ tok.Signature)
    (hne : now'.After eNew = false) :
    (Mint.Verify ⟨some s, b⟩ e' now' ⟨tok.Data, eNew, tok.Signature⟩).2 =
      .error .invalidSignature := by
  have hv := Verify_eq_of_not_after ⟨some s, b⟩ e' now' ⟨tok.Data, eNew, tok.Signature⟩ hne
  rw [hv, postMint_of_secret]
  have hnot : ¬ (⟨tok.Data, eNew, tok.Signature⟩ : Token).Signature =
      hmacSha256 (Mint.key ⟨some s, true⟩)
        ((⟨tok.Data, eNew, tok.Signature⟩ : Token).Data ++ beBytes 8 (unixU64 eNew)) :=
    fun h => hdiff h.symm
  rw [if_neg hnot]

set_option maxRecDepth 1000000 in
/-- Witness for C6 (amended): a one-second increment at concrete values. -/
theorem c6_tamper_amended_witness :
    (Mint.Verify ⟨some [107], true⟩ entZero ⟨2029, 12, 31, 0, 0, 0, 0, 0⟩
        ⟨[97, 98, 99], ⟨2030, 1, 1, 0, 0, 1, 0, 0⟩,
          (Mint.Sign ⟨some [107], true⟩ entZero [97, 98, 99]
            ⟨2030, 1, 1, 0, 0, 0, 0, 0⟩).2.Signature⟩).2 =
      .error .invalidSignature := by
  refine c6_tamper_amended [107] true entZero entZero
    (Mint.Sign ⟨some [107], true⟩ entZero [97, 98, 99] ⟨2030, 1, 1, 0, 0, 0, 0, 0⟩).2
    ⟨2029, 12, 31, 0, 0, 0, 0, 0⟩ ⟨2029, 12, 31, 0, 0, 0, 0, 0⟩ ⟨2030, 1, 1, 0, 0, 1, 0, 0⟩
    ?_ ?_ ?_
  · decide
  · decide
  · decide

/-- C7: a mint holding secret `s` keeps exactly that secret across every
sequence of `Sign`, `Generate` and `Verify` calls, and every MAC any of
those calls computes is keyed by `s`; a mint created without a secret
establishes, at its first signing operation, a 256-byte secret drawn from
the random source, and every subsequent call uses exactly that secret. -/
theorem c7_secret_lifecycle :
    (∀ (s : List Nat) (b : Bool) (ops : List Op),
      (runOps ⟨some s, b⟩ ops).1.secret = some s ∧
      (runOps ⟨some s, b⟩ ops).2 = ops.map (opMac s)) ∧
    (∀ (e : Entropy) (data : List Nat) (expires : GoTime),
      (Mint.zero.Sign e data expires).1 = ⟨some (randBytes e 256), true⟩ ∧
      (randBytes e 256).length = 256 ∧
      ∀ ops : List Op,
        (runOps (Mint.zero.Sign e data expires).1 ops).1.secret = some (randBytes e 256) ∧
        (runOps (Mint.zero.Sign e data expires).1 ops).2 = ops.map (opMac (randBytes e 256))) := by
  refine ⟨fun s b ops => runOps_of_secret s b ops,
    fun e data expires => ⟨rfl, randBytes_length e 256, fun ops => ?_⟩⟩
  have h1 : (Mint.zero.Sign e data expires).1 = (⟨some (randBytes e 256), true⟩ : Mint) := rfl
  rw [h1]
  exact runOps_of_secret _ true ops

/-- C8 (counterexample): two time values denoting the same instant on the
same machine, one carried in UTC and one at offset +01:00, serialize to
different strings — the timestamp field is rendered from the expiry
value's own zone, not from the encoder's local time zone. -/
theorem c8_zone_counterexample :
    GoTime.Equal ⟨2025, 1, 1, 12, 0, 0, 0, 0⟩ ⟨2025, 1, 1, 13, 0, 0, 0, 3600⟩ ∧
    Token.String ⟨[], ⟨2025, 1, 1, 12, 0, 0, 0, 0⟩, []⟩ ≠
      Token.String ⟨[], ⟨2025, 1, 1, 13, 0, 0, 0, 3600⟩, []⟩ := by
  decide

/-- C8 (amended): a token's serialization is
`encode(payload) ++ "." ++ timestamp ++ "." ++ encode(signature)` with
unpadded URL-safe base64; for a valid expiry with a 4-digit year the
timestamp field is exactly 14 zero-padded ASCII digits in
`YYYYMMDDHHMMSS` form rendered from the expiry value's own time zone
(parsing it back recovers exactly the six civil fields). -/
theorem c8_serialization_amended (t : Token) (hv : t.Expiry.ValidCivil)
    (hy : t.Expiry.year ≤ 9999) :
    t.String = Encode t.Data ++ '.' :: (formatTimestamp t.Expiry ++ '.' :: Encode t.Signature) ∧
    (formatTimestamp t.Expiry).length = 14 ∧
    (∀ c ∈ formatTimestamp t.Expiry, isDigitChar c) ∧
    parseTimestamp (formatTimestamp t.Expiry) =
      some (t.Expiry.year, t.Expiry.month, t.Expiry.day, t.Expiry.hour,
        t.Expiry.minute, t.Expiry.second) := by
  obtain ⟨hlen, hdig⟩ := formatTimestamp_digits t.Expiry hv hy
  exact ⟨rfl, hlen, hdig, parseTimestamp_formatTimestamp t.Expiry hv hy⟩

/-- Witness for C8 (amended) at a concrete token. -/
theorem c8_serialization_amended_witness :
    Token.String ⟨[97], ⟨2025, 6, 15, 12, 30, 45, 0, 0⟩, [1]⟩ =
      Encode [97] ++ '.' :: (formatTimestamp ⟨2025, 6, 15, 12, 30, 45, 0, 0⟩ ++
        '.' :: Encode [1]) ∧
    (formatTimestamp (⟨2025, 6, 15, 12, 30, 45, 0, 0⟩ : GoTime)).length = 14 ∧
    (∀ c ∈ formatTimestamp (⟨2025, 6, 15, 12, 30, 45, 0, 0⟩ : GoTime), isDigitChar c) ∧
    parseTimestamp (formatTimestamp (⟨2025, 6, 15, 12, 30, 45, 0, 0⟩ : GoTime)) =
      some (2025, 6, 15, 12, 30, 45) :=
  c8_serialization_amended ⟨[97], ⟨2025, 6, 15, 12, 30, 45, 0, 0⟩, [1]⟩ (by decide) (by decide)

/-- C9: the signature depends on the expiry only through its whole-second
Unix value: two expiries with equal Unix seconds give identical
signatures for the same payload and secret, so changing a token's expiry
by a sub-second amount that keeps the Unix second leaves it verifying
successfully. -/
theorem c9_unix_second_granularity (s : List Nat) (b c : Bool) (e e' e'' : Entropy)
    (data : List Nat) (t1 t2 now : GoTime) (hu : t1.unixSec = t2.unixSec) :
    (Mint.Sign ⟨some s, b⟩ e data t1).2.Signature =
      (Mint.Sign ⟨some s, c⟩ e' data t2).2.Signature ∧
    (now.After t2 = false →
      (Mint.Verify ⟨some s, b⟩ e'' now
          ⟨data, t2, (Mint.Sign ⟨some s, b⟩ e data t1).2.Signature⟩).2 =
        .ok ⟨data, t2, (Mint.Sign ⟨some s, b⟩ e data t1).2.Signature⟩) := by
  have hu64 : unixU64 t1 = unixU64 t2 := by unfold unixU64; rw [hu]
  constructor
  · simp only [Sign_eq, postMint_of_secret]
    rw [hu64]
  · intro hne
    have hv := Verify_eq_of_not_after ⟨some s, b⟩ e'' now
      ⟨data, t2, (Mint.Sign ⟨some s, b⟩ e data t1).2.Signature⟩ hne
    rw [hv, postMint_of_secret]
    have hsig : (Mint.Sign ⟨some s, b⟩ e data t1).2.Signature =
        hmacSha256 (Mint.key ⟨some s, true⟩) (data ++ beBytes 8 (unixU64 t2)) := by
      simp only [Sign_eq, postMint_of_secret]
      rw [hu64]
    rw [if_pos hsig]

set_option maxRecDepth 1000000 in
/-- Witness for C9: two expiries in the same Unix second, different
nanoseconds. -/
theorem c9_unix_second_granularity_witness :
    (Mint.Sign ⟨some [107], true⟩ entZero [97] ⟨2030, 1, 1, 0, 0, 0, 111111111, 0⟩).2.Signature =
      (Mint.Sign ⟨some [107], false⟩ entZero [97]
        ⟨2030, 1, 1, 0, 0, 0, 999999999, 0⟩).2.Signature ∧
    (Mint.Verify ⟨some [107], true⟩ entZero ⟨2029, 1, 1, 0, 0, 0, 0, 0⟩
        ⟨[97], ⟨2030, 1, 1, 0, 0, 0, 999999999, 0⟩,
          (Mint.Sign ⟨some [107], true⟩ entZero [97]
            ⟨2030, 1, 1, 0, 0, 0, 111111111, 0⟩).2.Signature⟩).2 =
      .ok ⟨[97], ⟨2030, 1, 1, 0, 0, 0, 999999999, 0⟩,
          (Mint.Sign ⟨some [107], true⟩ entZero [97]
            ⟨2030, 1, 1, 0, 0, 0, 111111111, 0⟩).2.Signature⟩ := by
  have h := c9_unix_second_granularity [107] true false entZero entZero entZero [97]
    ⟨2030, 1, 1, 0, 0, 0, 111111111, 0⟩ ⟨2030, 1, 1, 0, 0, 0, 999999999, 0⟩
    ⟨2029, 1, 1, 0, 0, 0, 0, 0⟩ (by decide)
  exact ⟨h.1, h.2 (by decide)⟩

/-- C10: `NewMint nil` is the zero-value mint (it lazily draws a 256-byte
secret at the first signing operation), while `NewMint` with any non-nil
secret — the empty slice included — keeps exactly that secret for every
operation and never replaces it with a generated one. -/
theorem c10_newmint_equivalence :
    NewMint none = Mint.zero ∧
    (∀ (e : Entropy) (data : List Nat) (expires : GoTime),
      ((NewMint none).Sign e data expires).1 = ⟨some (randBytes e 256), true⟩) ∧
    (∀ (sec : List Nat) (ops : List Op),
      (runOps (NewMint (some sec)) ops).1.secret = some sec ∧
      (runOps (NewMint (some sec)) ops).2 = ops.map (opMac sec)) :=
  ⟨rfl, fun _ _ _ => rfl, fun sec ops => runOps_of_secret sec false ops⟩
